import Mathlib

/-!
Verification of the TSM ensemble-orchestration core
(`tsm/core/result.py`, `tsm/core/worker.py`, `tsm/core/aggregator.py`,
`tsm/core/learner.py`).

The Python code is shallowly embedded: floats become `ℚ`, Python
exceptions become `Except Exc` with `Exc` carrying the exception class
name and message, and Python's insertion-ordered `dict` becomes an
association list mutated by `dinsert` (update-in-place when the key is
present, append otherwise).  Wall-clock measurement is abstracted as an
explicit non-negative `elapsed` parameter.  Thread scheduling in
`WorkerPool.execute_parallel` is modelled by the observation that
`concurrent.futures.as_completed` yields a future only after it has
completed, so the subsequent `future.result(timeout=...)` call acts on
an already-completed future and returns (or re-raises) immediately; the
result list is represented in submission order and only order-insensitive
properties are proved about it.
-/

namespace TSM

/-- Python exception: class name and message (`str(e)`). -/
structure Exc where
  ty : String
  msg : String
deriving DecidableEq, Repr

/-! ### Insertion-ordered dictionaries (Python `dict` semantics) -/

/-- Lookup in an association list, first binding wins (Python `d.get(k)`). -/
def dget? {K V : Type} [DecidableEq K] : List (K × V) → K → Option V
  | [], _ => none
  | p :: ps, k => if p.1 = k then some p.2 else dget? ps k

/-- Lookup with default (Python `d.get(k, dflt)` / `d[k]` when present). -/
def dgetD {K V : Type} [DecidableEq K] (d : List (K × V)) (k : K) (dflt : V) : V :=
  (dget? d k).getD dflt

/-- Python `d[k] = v`: update in place when the key is present (keeping its
position), append at the end otherwise. -/
def dinsert {K V : Type} [DecidableEq K] : List (K × V) → K → V → List (K × V)
  | [], k, v => [(k, v)]
  | p :: ps, k, v => if p.1 = k then (k, v) :: ps else p :: dinsert ps k v

/-- Python `k in d`. -/
def dcontains {K V : Type} [DecidableEq K] (d : List (K × V)) (k : K) : Bool :=
  (dget? d k).isSome

/-- Python `sum(d.values())` for a dict with rational values. -/
def sumValues {K : Type} (d : List (K × ℚ)) : ℚ :=
  (d.map (fun p => p.2)).sum

/-! ### Result model (`tsm/core/result.py`) -/

/-- The `ResultStatus` enum of `result.py`. -/
inductive ResultStatus where
  | success
  | failed
  | anomaly
  | timeout
deriving DecidableEq, Repr

/-- Metadata values: the `Dict[str, Any]` payloads actually stored by the
core are strings, integers, rationals, booleans, a vote-distribution table
keyed by worker output values, or a string-to-string parameter table. -/
inductive MVal (A : Type) where
  | s (v : String)
  | n (v : Nat)
  | q (v : ℚ)
  | b (v : Bool)
  | dist (d : List (Option A × ℚ))
  | sdict (d : List (String × String))
deriving DecidableEq, Repr

/-- The `WorkerResult` dataclass (raw fields; `timestamp` is omitted as pure
wall-clock bookkeeping, and a Python `value` of `None` is `Option.none`). -/
structure WorkerResult (A : Type) where
  worker_id : String
  value : Option A
  confidence : ℚ
  processing_time_ms : ℚ
  status : ResultStatus
  metadata : List (String × MVal A)
  trace_id : String
deriving DecidableEq, Repr

/-- The dataclass constructor together with `WorkerResult.__post_init__`:
construction raises `ValueError` when `confidence` is outside `[0, 1]` or
`processing_time_ms` is negative. -/
def WorkerResult.mkChecked {A : Type} (worker_id : String) (value : Option A)
    (confidence : ℚ) (processing_time_ms : ℚ) (status : ResultStatus)
    (metadata : List (String × MVal A)) (trace_id : String) :
    Except Exc (WorkerResult A) :=
  if 0 ≤ confidence ∧ confidence ≤ 1 then
    if processing_time_ms < 0 then
      .error ⟨"ValueError", "Processing time cannot be negative"⟩
    else
      .ok ⟨worker_id, value, confidence, processing_time_ms, status, metadata, trace_id⟩
  else
    .error ⟨"ValueError", "Confidence must be between 0.0 and 1.0"⟩

/-- The `WorkerResult.is_valid` predicate: status is `SUCCESS` and
confidence is strictly positive. -/
def WorkerResult.isValid {A : Type} (r : WorkerResult A) : Bool :=
  r.status == ResultStatus.success && decide (0 < r.confidence)

/-- The `AggregatedResult` dataclass (raw fields; `timestamp` omitted). -/
structure AggregatedResult (A : Type) where
  value : Option A
  confidence : ℚ
  worker_results : List (WorkerResult A)
  weights : List (String × ℚ)
  aggregation_method : String
  processing_time_ms : ℚ
  metadata : List (String × MVal A)
  trace_id : String
deriving DecidableEq, Repr

/-- The dataclass constructor together with `AggregatedResult.__post_init__`:
only `confidence` is validated; `processing_time_ms` is not checked. -/
def AggregatedResult.mkChecked {A : Type} (value : Option A) (confidence : ℚ)
    (worker_results : List (WorkerResult A)) (weights : List (String × ℚ))
    (aggregation_method : String) (processing_time_ms : ℚ)
    (metadata : List (String × MVal A)) (trace_id : String) :
    Except Exc (AggregatedResult A) :=
  if 0 ≤ confidence ∧ confidence ≤ 1 then
    .ok ⟨value, confidence, worker_results, weights, aggregation_method,
         processing_time_ms, metadata, trace_id⟩
  else
    .error ⟨"ValueError", "Confidence must be between 0.0 and 1.0"⟩

/-! ### Worker model (`tsm/core/worker.py`) -/

/-- The `WorkerStatus` enum of `worker.py`. -/
inductive WorkerStatus where
  | idle
  | active
  | failed
  | quarantined
  | disabled
deriving DecidableEq, Repr

/-- A concrete worker implementation: the abstract `process` and
`get_confidence` methods, which may raise, plus the identity and config
data `execute` reads.  `I` is the input type, `A` the output value type. -/
structure WorkerImpl (I A : Type) where
  worker_id : String
  worker_type : String
  parameters : List (String × String)
  process : I → Except Exc A
  get_confidence : I → A → Except Exc ℚ

/-- The mutable per-worker counters of the `Worker` base class. -/
structure WorkerState where
  status : WorkerStatus
  execution_count : Nat
  failure_count : Nat
  total_processing_time_ms : ℚ
deriving DecidableEq, Repr

/-- Fresh worker state as set by `Worker.__init__`. -/
def WorkerState.init : WorkerState := ⟨WorkerStatus.idle, 0, 0, 0⟩

/-- Shallow embedding of `Worker.execute`.  `elapsed` abstracts the measured
wall-clock duration `(time.time() - start_time) * 1000`.  The body mirrors
the Python `try` block: `process`, then `get_confidence`, then the
`SUCCESS` `WorkerResult` construction (whose `__post_init__` may itself
raise and be caught); the `except Exception` branch builds the `FAILED`
result, whose own construction is outside any `try` and therefore appears
as the outer `Except`. -/
def Worker.execute {I A : Type} (w : WorkerImpl I A) (st : WorkerState)
    (data : I) (trace_id : String) (elapsed : ℚ) :
    Except Exc (WorkerState × WorkerResult A) :=
  let st1 : WorkerState :=
    { st with status := WorkerStatus.active, execution_count := st.execution_count + 1 }
  let attempt : WorkerState × Except Exc (WorkerState × WorkerResult A) :=
    match w.process data with
    | .error e => (st1, .error e)
    | .ok v =>
      match w.get_confidence data v with
      | .error e => (st1, .error e)
      | .ok c =>
        let st2 : WorkerState :=
          { st1 with total_processing_time_ms := st1.total_processing_time_ms + elapsed }
        match WorkerResult.mkChecked w.worker_id (some v) c elapsed ResultStatus.success
            [("worker_type", MVal.s w.worker_type),
             ("execution_count", MVal.n st1.execution_count),
             ("parameters", MVal.sdict w.parameters)] trace_id with
        | .error e => (st2, .error e)
        | .ok r => (st2, .ok ({ st2 with status := WorkerStatus.idle }, r))
  match attempt.2 with
  | .ok x => .ok x
  | .error e =>
    let stE : WorkerState :=
      { attempt.1 with failure_count := attempt.1.failure_count + 1,
                       status := WorkerStatus.failed }
    match WorkerResult.mkChecked w.worker_id none 0 elapsed ResultStatus.failed
        [("error", MVal.s e.msg),
         ("error_type", MVal.s e.ty),
         ("failure_count", MVal.n stE.failure_count)] trace_id with
    | .error e2 => .error e2
    | .ok r => .ok (stE, r)

/-- A registered worker as the pool sees it: implementation, mutable state,
and the `WorkerConfig` fields the dispatch path reads.  `duration_ms`
abstracts the wall-clock time this worker's `execute` call takes. -/
structure PoolWorker (I A : Type) where
  impl : WorkerImpl I A
  state : WorkerState
  enabled : Bool
  timeout_seconds : ℚ
  retry_attempts : Nat
  duration_ms : ℚ

/-- The pool registry `self.workers`: an insertion-ordered dict keyed by
`worker_id`. -/
def Registry (I A : Type) : Type := List (String × PoolWorker I A)

/-- Embedding of `WorkerPool.register_worker`: unconditional dict
assignment, silently replacing any worker already registered under the
same id. -/
def registerWorker {I A : Type} (reg : Registry I A) (w : PoolWorker I A) :
    Registry I A :=
  dinsert reg w.impl.worker_id w

/-- Embedding of `WorkerPool.unregister_worker`. -/
def unregisterWorker {I A : Type} (reg : Registry I A) (wid : String) :
    Registry I A :=
  reg.filter (fun p => !(p.1 == wid))

/-- Python truthiness check `worker.config.enabled and worker.status not in
[QUARANTINED, DISABLED]` used by `get_active_workers`. -/
def PoolWorker.isActive {I A : Type} (w : PoolWorker I A) : Bool :=
  w.enabled && !(w.state.status == WorkerStatus.quarantined)
            && !(w.state.status == WorkerStatus.disabled)

/-- Embedding of `WorkerPool.get_active_workers`: registry values in
insertion order, filtered by the enabled/health check. -/
def getActiveWorkers {I A : Type} (reg : Registry I A) : List (PoolWorker I A) :=
  (reg.map (fun p => p.2)).filter PoolWorker.isActive

/-- The worker-selection step of `WorkerPool.execute_parallel`: Python's
`if worker_ids:` is falsy both for `None` and for an empty list, in which
case all active workers are taken; a non-empty explicit list is resolved
against the registry with no active-status filtering. -/
def workersToExecute {I A : Type} (reg : Registry I A)
    (worker_ids : Option (List String)) : List (PoolWorker I A) :=
  match worker_ids with
  | some ids =>
    if ids.isEmpty then getActiveWorkers reg
    else ids.filterMap (fun wid => dget? reg wid)
  | none => getActiveWorkers reg

/-- The per-future collection step of `WorkerPool.execute_parallel`.
Because `as_completed(futures)` (called with no timeout) yields a future
only once it has completed, the later `future.result(timeout=...)` call
always acts on a completed future: it returns the stored `WorkerResult`,
or re-raises the exception the task died with, immediately — it can never
raise `TimeoutError`, so the `except TimeoutError` branch of the source is
unreachable and only the value case and the `except Exception` case
(which synthesizes a `FAILED` result) remain. -/
def collectResult {I A : Type} (w : PoolWorker I A) (trace_id : String)
    (outcome : Except Exc (WorkerState × WorkerResult A)) : WorkerResult A :=
  match outcome with
  | .ok x => x.2
  | .error e =>
    { worker_id := w.impl.worker_id
      value := none
      confidence := 0
      processing_time_ms := 0
      status := ResultStatus.failed
      metadata := [("error", MVal.s e.msg)]
      trace_id := trace_id }

/-- Embedding of `WorkerPool.execute_parallel`: select the workers, run
each worker's `execute` (its wall-clock duration abstracted by
`duration_ms`), and collect one `WorkerResult` per dispatched worker.
The real list is in completion order; this model lists results in
submission order and only order-insensitive properties are proved. -/
def executeParallel {I A : Type} (reg : Registry I A) (data : I)
    (worker_ids : Option (List String)) (trace_id : String) :
    List (WorkerResult A) :=
  (workersToExecute reg worker_ids).map (fun w =>
    collectResult w trace_id
      (Worker.execute w.impl w.state data trace_id w.duration_ms))

/-! ### Weight learner (`tsm/core/learner.py`) -/

/-- The `PerformanceMetric` dataclass (timestamp omitted); `predicted` and
`actual` are opaque payloads not read by the update rule. -/
structure PerformanceMetric (A : Type) where
  worker_id : String
  predicted : Option A
  actual : Option A
  confidence : ℚ
  accuracy : ℚ
deriving DecidableEq, Repr

/-- Configuration of `BayesianWeightLearner` as fixed by `__init__`
(defaults: `alpha=0.1`, `prior_weight=1.0`, `min_weight=0.01`,
`confidence_scaling=True`). -/
structure LearnerConfig where
  alpha : ℚ
  prior_weight : ℚ
  min_weight : ℚ
  confidence_scaling : Bool
deriving DecidableEq, Repr

/-- The validation performed by `BayesianWeightLearner.__init__`:
`ValueError` on `alpha` outside `(0, 1]` or non-positive `prior_weight`. -/
def LearnerConfig.mkChecked (alpha prior_weight min_weight : ℚ)
    (confidence_scaling : Bool) : Except Exc LearnerConfig :=
  if 0 < alpha ∧ alpha ≤ 1 then
    if prior_weight ≤ 0 then
      .error ⟨"ValueError", "Prior weight must be positive"⟩
    else
      .ok ⟨alpha, prior_weight, min_weight, confidence_scaling⟩
  else
    .error ⟨"ValueError", "Alpha must be between 0 and 1"⟩

/-- The mutable state of `BayesianWeightLearner`: weights, per-worker
history and update counters, all insertion-ordered dicts. -/
structure LearnerState (A : Type) where
  weights : List (String × ℚ)
  history : List (String × List (PerformanceMetric A))
  update_count : List (String × Nat)
deriving DecidableEq, Repr

/-- Fresh learner state as set by `BayesianWeightLearner.__init__`. -/
def LearnerState.init {A : Type} : LearnerState A := ⟨[], [], []⟩

/-- Embedding of `BayesianWeightLearner.get_weight`: stored weight, or the
configured prior for a worker never updated. -/
def getWeight {A : Type} (cfg : LearnerConfig) (st : LearnerState A)
    (worker_id : String) : ℚ :=
  dgetD st.weights worker_id cfg.prior_weight

/-- Embedding of `BayesianWeightLearner.update_weight`: exponential moving
average toward the observed accuracy with learning rate `alpha`
(optionally scaled by the metric's confidence), floored at `min_weight`;
also appends the metric to the history and bumps the update counter.
Returns the new state and the stored weight. -/
def updateWeight {A : Type} (cfg : LearnerConfig) (st : LearnerState A)
    (worker_id : String) (metric : PerformanceMetric A) :
    LearnerState A × ℚ :=
  let current_weight := getWeight cfg st worker_id
  let effective_alpha :=
    if cfg.confidence_scaling then cfg.alpha * metric.confidence else cfg.alpha
  let new_weight :=
    current_weight * (1 - effective_alpha) + metric.accuracy * effective_alpha
  let new_weight := max new_weight cfg.min_weight
  let st' : LearnerState A :=
    { weights := dinsert st.weights worker_id new_weight
      history :=
        dinsert st.history worker_id (dgetD st.history worker_id [] ++ [metric])
      update_count :=
        dinsert st.update_count worker_id (dgetD st.update_count worker_id 0 + 1) }
  (st', new_weight)

/-- A sequence of `update_weight` calls, one per observation. -/
def runUpdates {A : Type} (cfg : LearnerConfig) (st : LearnerState A)
    (obs : List (String × PerformanceMetric A)) : LearnerState A :=
  obs.foldl (fun s o => (updateWeight cfg s o.1 o.2).1) st

/-! ### Aggregation strategies (`tsm/core/aggregator.py`) -/

/-- Embedding of `AggregationStrategy._filter_valid_results`. -/
def filterValid {A : Type} (results : List (WorkerResult A)) : List (WorkerResult A) :=
  results.filter WorkerResult.isValid

/-- Embedding of `AggregationStrategy._get_weights`: a dict comprehension
over the given results.  Python's `if provided_weights:` is falsy for both
`None` and an empty dict, in which case every worker gets weight `1.0`;
otherwise each worker gets `provided_weights.get(worker_id, 1.0)`. -/
def getWeights {A : Type} (results : List (WorkerResult A))
    (provided : Option (List (String × ℚ))) : List (String × ℚ) :=
  match provided with
  | some pw =>
    if pw.isEmpty then results.foldl (fun d r => dinsert d r.worker_id 1) []
    else results.foldl (fun d r => dinsert d r.worker_id (dgetD pw r.worker_id 1)) []
  | none => results.foldl (fun d r => dinsert d r.worker_id 1) []

/-- The sentinel `AggregatedResult` every strategy returns when something
rules out a real aggregation (no valid results, or non-numerical values);
its construction always passes validation since `confidence = 0`. -/
def sentinelResult {A : Type} (results : List (WorkerResult A))
    (method msg : String) : AggregatedResult A :=
  { value := none
    confidence := 0
    worker_results := results
    weights := []
    aggregation_method := method
    processing_time_ms := 0
    metadata := [("error", MVal.s msg)]
    trace_id := "" }

/-- The effective-weight dict of `WeightedAverageAggregation.aggregate`:
`base_weight * confidence` per valid result (or the bare base weight when
`use_confidence` is off), built by dict assignment over the valid results. -/
def effectiveWeights (use_confidence : Bool) (valid : List (WorkerResult ℚ))
    (bw : List (String × ℚ)) : List (String × ℚ) :=
  valid.foldl (fun d r =>
    dinsert d r.worker_id
      (if use_confidence then dgetD bw r.worker_id 1 * r.confidence
       else dgetD bw r.worker_id 1)) []

/-- The normalization step of `WeightedAverageAggregation.aggregate`:
divide by the total when it is positive, otherwise fall back to equal
weights `1 / len(effective_weights)`. -/
def normalizeDict (d : List (String × ℚ)) : List (String × ℚ) :=
  let total := sumValues d
  if 0 < total then d.map (fun p => (p.1, p.2 / total))
  else d.map (fun p => (p.1, 1 / (d.length : ℚ)))

/-- Embedding of `WeightedAverageAggregation.aggregate` at the numeric
value instantiation (`A := ℚ`).  A Python `TypeError` from multiplying a
non-numeric value — here, a `None` value — is caught and converted to the
sentinel result; a `ValueError` raised by the final `AggregatedResult`
construction is not caught and escapes as the `Except` error. -/
def weightedAverageAggregate (use_confidence : Bool)
    (results : List (WorkerResult ℚ)) (provided : Option (List (String × ℚ))) :
    Except Exc (AggregatedResult ℚ) :=
  let valid := filterValid results
  if valid.isEmpty then
    .ok (sentinelResult results "weighted_average" "No valid results to aggregate")
  else
    let bw := getWeights valid provided
    let normalized := normalizeDict (effectiveWeights use_confidence valid bw)
    if valid.all (fun r => r.value.isSome) then
      let weighted_sum :=
        (valid.map (fun r => r.value.getD 0 * dgetD normalized r.worker_id 0)).sum
      let overall_confidence :=
        (valid.map (fun r => r.confidence * dgetD normalized r.worker_id 0)).sum
      AggregatedResult.mkChecked (some weighted_sum) overall_confidence results
        normalized "weighted_average" 0
        [("valid_results", MVal.n valid.length),
         ("total_results", MVal.n results.length),
         ("use_confidence", MVal.b use_confidence)] ""
    else
      .ok (sentinelResult results "weighted_average" "Non-numerical values")

/-- The weighted vote table of `MajorityVotingAggregation.aggregate`: a
dict keyed by output value, accumulated in first-seen order by
`vote_scores[value] = vote_scores.get(value, 0.0) + score`. -/
def voteScores {A : Type} [DecidableEq A] (use_confidence : Bool)
    (valid : List (WorkerResult A)) (bw : List (String × ℚ)) :
    List (Option A × ℚ) :=
  valid.foldl (fun d r =>
    let score :=
      if use_confidence then dgetD bw r.worker_id 1 * r.confidence
      else dgetD bw r.worker_id 1
    dinsert d r.value (dgetD d r.value 0 + score)) []

/-- Python `max(items, key=lambda x: x[1])`: scan left to right, replacing
the current best only on a strictly larger score, so the first-seen
maximum wins ties. -/
def firstMax {K : Type} : List (K × ℚ) → Option (K × ℚ)
  | [] => none
  | p :: ps => some (ps.foldl (fun best q => if best.2 < q.2 then q else best) p)

/-- Embedding of `MajorityVotingAggregation.aggregate`.  The `weights`
field stores the unnormalized base weights; a `ValueError` from the final
construction (possible when the computed confidence leaves `[0, 1]`) is
not caught and escapes as the `Except` error. -/
def majorityVotingAggregate {A : Type} [DecidableEq A] (use_confidence : Bool)
    (results : List (WorkerResult A)) (provided : Option (List (String × ℚ))) :
    Except Exc (AggregatedResult A) :=
  let valid := filterValid results
  if valid.isEmpty then
    .ok (sentinelResult results "majority_voting" "No valid results to aggregate")
  else
    let bw := getWeights valid provided
    let vs := voteScores use_confidence valid bw
    match firstMax vs with
    | none => .error ⟨"ValueError", "max arg is an empty sequence"⟩
    | some w =>
      let total_score := sumValues vs
      let confidence := if 0 < total_score then w.2 / total_score else 0
      let agreement :=
        ((valid.filter (fun r => decide (r.value = w.1))).length : ℚ) /
          (valid.length : ℚ)
      AggregatedResult.mkChecked w.1 confidence results bw "majority_voting" 0
        [("valid_results", MVal.n valid.length),
         ("total_results", MVal.n results.length),
         ("vote_distribution", MVal.dist vs),
         ("agreement", MVal.q agreement),
         ("use_confidence", MVal.b use_confidence)] ""

/-- Embedding of `ConfidenceBasedAggregation.aggregate`: linear scan
starting from `best_score = -1.0`, replacing on a strictly larger
`confidence * base_weight`.  When no score beats `-1.0` (possible only
with negative provided weights) the Python code dereferences
`best_result = None` and raises `AttributeError`. -/
def confidenceBasedAggregate {A : Type} (results : List (WorkerResult A))
    (provided : Option (List (String × ℚ))) : Except Exc (AggregatedResult A) :=
  let valid := filterValid results
  if valid.isEmpty then
    .ok (sentinelResult results "confidence_based" "No valid results to aggregate")
  else
    let bw := getWeights valid provided
    let best := valid.foldl (fun acc r =>
        let score := r.confidence * dgetD bw r.worker_id 1
        if acc.2 < score then (some r, score) else acc)
      ((none : Option (WorkerResult A)), (-1 : ℚ))
    match best.1 with
    | none => .error ⟨"AttributeError", "NoneType object has no attribute value"⟩
    | some br =>
      AggregatedResult.mkChecked br.value br.confidence results bw
        "confidence_based" 0
        [("valid_results", MVal.n valid.length),
         ("total_results", MVal.n results.length),
         ("selected_worker", MVal.s br.worker_id),
         ("weighted_confidence", MVal.q best.2)] ""

/-- Embedding of `np.median`: sort ascending, middle element for odd
length, mean of the two middle elements for even length. -/
def medianQ (l : List ℚ) : ℚ :=
  let s := l.mergeSort (fun a b => a ≤ b)
  if l.length % 2 = 1 then s.getD (l.length / 2) 0
  else (s.getD (l.length / 2 - 1) 0 + s.getD (l.length / 2) 0) / 2

/-- Embedding of `np.max` on a non-empty list. -/
def maxQ (l : List ℚ) : ℚ :=
  match l with
  | [] => 0
  | x :: xs => xs.foldl max x

/-- Embedding of `np.min` on a non-empty list. -/
def minQ (l : List ℚ) : ℚ :=
  match l with
  | [] => 0
  | x :: xs => xs.foldl min x

/-- Embedding of `MedianAggregation.aggregate` at the numeric value
instantiation.  Its `try` block catches both `TypeError` (non-numeric —
here, `None` — values) and `ValueError` (including one raised by the
final `AggregatedResult` construction), converting either into the
sentinel result, so this strategy is total. -/
def medianAggregate (results : List (WorkerResult ℚ))
    (provided : Option (List (String × ℚ))) : AggregatedResult ℚ :=
  let valid := filterValid results
  if valid.isEmpty then
    sentinelResult results "median" "No valid results to aggregate"
  else if valid.all (fun r => r.value.isSome) then
    let values := valid.map (fun r => r.value.getD 0)
    let confidences := valid.map (fun r => r.confidence)
    let median_value := medianQ values
    let mad := medianQ (values.map (fun v => |v - median_value|))
    let confidence :=
      if 1 < values.length then
        (if 0 < maxQ values - minQ values then
          1 - min (mad / (maxQ values - minQ values)) 1
         else 1)
      else confidences.headD 0
    let avg_worker_confidence := confidences.sum / (confidences.length : ℚ)
    let overall_confidence := (confidence + avg_worker_confidence) / 2
    match AggregatedResult.mkChecked (some median_value) overall_confidence
        results (getWeights valid provided) "median" 0
        [("valid_results", MVal.n valid.length),
         ("total_results", MVal.n results.length),
         ("mad", MVal.q mad),
         ("value_range", MVal.q
           (if 1 < values.length then maxQ values - minQ values else 0))] "" with
    | .ok a => a
    | .error _ => sentinelResult results "median" "Non-numerical values"
  else
    sentinelResult results "median" "Non-numerical values"

/-! ### Concrete fixtures used by witnesses and counterexamples -/

/-- A successful ℚ-valued worker result with the given id, value and
confidence. -/
def mkNumResult (wid : String) (v c : ℚ) : WorkerResult ℚ :=
  ⟨wid, some v, c, 0, ResultStatus.success, [], "t"⟩

/-- A successful String-valued (categorical) worker result. -/
def mkCatResult (wid v : String) (c : ℚ) : WorkerResult String :=
  ⟨wid, some v, c, 0, ResultStatus.success, [], "t"⟩

/-- A worker whose `process` always succeeds with value 42 and whose
`get_confidence` returns 1. -/
def okImpl : WorkerImpl ℚ ℚ :=
  ⟨"ok_worker", "OkWorker", [], fun _ => .ok 42, fun _ _ => .ok 1⟩

/-- A worker whose `process` always raises. -/
def boomImpl : WorkerImpl ℚ ℚ :=
  ⟨"boom_worker", "BoomWorker", [],
   fun _ => .error ⟨"RuntimeError", "boom"⟩, fun _ _ => .ok 1⟩

/-- A registered pool worker around `okImpl` whose `process` takes 10
seconds of wall clock against a configured 1-second timeout. -/
def slowPoolWorker : PoolWorker ℚ ℚ :=
  { impl := { okImpl with worker_id := "slow_worker" }
    state := WorkerState.init
    enabled := true
    timeout_seconds := 1
    retry_attempts := 3
    duration_ms := 10000 }

/-- A single-worker registry holding `slowPoolWorker`. -/
def slowRegistry : Registry ℚ ℚ := registerWorker [] slowPoolWorker

/-- A registered pool worker that is disabled (`enabled = False`). -/
def disabledPoolWorker : PoolWorker ℚ ℚ :=
  { impl := { okImpl with worker_id := "off_worker" }
    state := WorkerState.init
    enabled := false
    timeout_seconds := 30
    retry_attempts := 3
    duration_ms := 5 }

/-- A single-worker registry holding only the disabled worker. -/
def disabledRegistry : Registry ℚ ℚ := registerWorker [] disabledPoolWorker

/-- A replacement worker sharing `disabledPoolWorker`'s id but enabled. -/
def replacementPoolWorker : PoolWorker ℚ ℚ :=
  { disabledPoolWorker with enabled := true, duration_ms := 7 }

/-- The learner configuration of the spec's worked example:
`alpha = 0.2`, `prior_weight = 1.0`, `min_weight = 0.01`,
`confidence_scaling = False`. -/
def exampleLearnerCfg : LearnerConfig :=
  { alpha := 1/5, prior_weight := 1, min_weight := 1/100,
    confidence_scaling := false }

/-- One observation with accuracy 0.5. -/
def halfAccuracyMetric : PerformanceMetric ℚ :=
  { worker_id := "w", predicted := some 1, actual := some 2,
    confidence := 9/10, accuracy := 1/2 }

/-- Two valid categorical results that both vote for the value `x`. -/
def catX2Results : List (WorkerResult String) :=
  [mkCatResult "a" "x" (1/2), mkCatResult "b" "x" (1/2)]

/-- The aggregated record majority voting produces on `catX2Results` with
no provided weights; its `weights` are the base weights, summing to 2. -/
def majX2Agg : AggregatedResult String :=
  { value := some "x"
    confidence := 1
    worker_results := catX2Results
    weights := [("a", 1), ("b", 1)]
    aggregation_method := "majority_voting"
    processing_time_ms := 0
    metadata :=
      [("valid_results", MVal.n 2), ("total_results", MVal.n 2),
       ("vote_distribution", MVal.dist [(some "x", 1)]),
       ("agreement", MVal.q 1), ("use_confidence", MVal.b true)]
    trace_id := "" }

/-- The result the slow worker actually produces: a `SUCCESS` record whose
processing time is the full 10000 ms, far beyond its 1-second timeout. -/
def slowRunResult : WorkerResult ℚ :=
  { worker_id := "slow_worker"
    value := some 42
    confidence := 1
    processing_time_ms := 10000
    status := ResultStatus.success
    metadata :=
      [("worker_type", MVal.s "OkWorker"), ("execution_count", MVal.n 1),
       ("parameters", MVal.sdict [])]
    trace_id := "t" }

/-- Two valid categorical results voting for different values. -/
def catMixedResults : List (WorkerResult String) :=
  [mkCatResult "a" "x" (1/2), mkCatResult "b" "y" (1/2)]

/-- A provided weight map with a negative entry: the losing vote then
subtracts from the total and `winning_score / total_score` exceeds 1. -/
def negWeights : List (String × ℚ) := [("a", 1), ("b", -4/5)]

/-- The spec's worked majority-voting scenario: two `high` voters with
weights 0.6 and 0.5 and one `medium` voter with weight 0.4. -/
def scenarioResults : List (WorkerResult String) :=
  [mkCatResult "w1" "high" (9/10), mkCatResult "w2" "high" (8/10),
   mkCatResult "w3" "medium" (7/10)]

/-- The provided weights of the worked scenario. -/
def scenarioWeights : List (String × ℚ) :=
  [("w1", 6/10), ("w2", 5/10), ("w3", 4/10)]

/-! ### Dictionary lemmas -/

theorem dget?_dinsert_self {K V : Type} [DecidableEq K]
    (d : List (K × V)) (k : K) (v : V) : dget? (dinsert d k v) k = some v := by
  induction d with
  | nil => simp [dinsert, dget?]
  | cons p ps ih =>
    by_cases h : p.1 = k
    · simp [dinsert, h, dget?]
    · simp [dinsert, h, dget?, ih]

theorem dget?_dinsert_of_ne {K V : Type} [DecidableEq K]
    (d : List (K × V)) (k k' : K) (v : V) (h : k ≠ k') :
    dget? (dinsert d k v) k' = dget? d k' := by
  have h' : ¬(k = k') := h
  have h'' : ¬(k' = k) := fun hh => h' hh.symm
  induction d with
  | nil => simp [dinsert, dget?, h']
  | cons p ps ih =>
    by_cases hp : p.1 = k
    · subst hp
      simp [dinsert, dget?, h']
    · by_cases hp' : p.1 = k'
      · simp [dinsert, hp, dget?, hp', h'']
      · simp [dinsert, hp, dget?, hp', ih]

theorem dgetD_dinsert_self {K V : Type} [DecidableEq K]
    (d : List (K × V)) (k : K) (v dflt : V) :
    dgetD (dinsert d k v) k dflt = v := by
  simp [dgetD, dget?_dinsert_self]

theorem dgetD_dinsert_of_ne {K V : Type} [DecidableEq K]
    (d : List (K × V)) (k k' : K) (v dflt : V) (h : k ≠ k') :
    dgetD (dinsert d k v) k' dflt = dgetD d k' dflt := by
  simp [dgetD, dget?_dinsert_of_ne _ _ _ _ h]

theorem dinsert_ne_nil {K V : Type} [DecidableEq K]
    (d : List (K × V)) (k : K) (v : V) : dinsert d k v ≠ [] := by
  cases d with
  | nil => simp [dinsert]
  | cons p ps =>
    by_cases h : p.1 = k <;> simp [dinsert, h]

theorem length_dinsert_of_contains {K V : Type} [DecidableEq K]
    (d : List (K × V)) (k : K) (v : V) (h : dcontains d k = true) :
    (dinsert d k v).length = d.length := by
  induction d with
  | nil => simp [dcontains, dget?] at h
  | cons p ps ih =>
    by_cases hp : p.1 = k
    · simp [dinsert, hp]
    · simp only [dcontains, dget?, hp, if_false] at h
      simp [dinsert, hp, ih h]

theorem dinsert_values_all {K V : Type} [DecidableEq K]
    (P : V → Prop) (d : List (K × V)) (k : K) (v : V)
    (hd : ∀ p ∈ d, P p.2) (hv : P v) :
    ∀ p ∈ dinsert d k v, P p.2 := by
  induction d with
  | nil =>
    intro p hp
    simp [dinsert] at hp
    simp [hp, hv]
  | cons q qs ih =>
    by_cases hq : q.1 = k
    · intro p hp
      simp only [dinsert, hq, if_true] at hp
      rcases List.mem_cons.mp hp with h | h
      · simp [h, hv]
      · exact hd p (List.mem_cons_of_mem _ h)
    · intro p hp
      simp only [dinsert, hq, if_false] at hp
      rcases List.mem_cons.mp hp with h | h
      · exact hd p (h ▸ List.mem_cons_self q qs)
      · exact ih (fun p hp => hd p (List.mem_cons_of_mem _ hp)) p h

theorem dgetD_nonneg {K : Type} [DecidableEq K]
    (d : List (K × ℚ)) (k : K) (h : ∀ p ∈ d, 0 ≤ p.2) :
    0 ≤ dgetD d k 0 := by
  induction d with
  | nil => simp [dgetD, dget?]
  | cons p ps ih =>
    by_cases hp : p.1 = k
    · simpa [dgetD, dget?, hp] using h p (List.mem_cons_self p ps)
    · simp only [dgetD, dget?, hp, if_false]
      exact ih (fun q hq => h q (List.mem_cons_of_mem _ hq))

theorem dget?_le_sumValues {K : Type} [DecidableEq K]
    (d : List (K × ℚ)) (k : K) (w : ℚ)
    (h : ∀ p ∈ d, 0 ≤ p.2) (hk : dget? d k = some w) :
    w ≤ sumValues d := by
  induction d with
  | nil => simp [dget?] at hk
  | cons p ps ih =>
    have hp2 : 0 ≤ p.2 := h p (List.mem_cons_self p ps)
    have hps : ∀ q ∈ ps, 0 ≤ q.2 := fun q hq => h q (List.mem_cons_of_mem _ hq)
    have hsum : 0 ≤ (ps.map (fun p => p.2)).sum := by
      apply List.sum_nonneg
      intro x hx
      rcases List.mem_map.mp hx with ⟨q, hq, rfl⟩
      exact hps q hq
    by_cases hpk : p.1 = k
    · simp only [dget?, hpk, if_true, Option.some.injEq] at hk
      subst hk
      simp only [sumValues, List.map_cons, List.sum_cons]
      linarith
    · simp only [dget?, hpk, if_false] at hk
      have hih := ih hps hk
      simp only [sumValues, List.map_cons, List.sum_cons] at hih ⊢
      linarith

theorem sumValues_map_div {K : Type} (d : List (K × ℚ)) (t : ℚ) :
    sumValues (d.map (fun p => (p.1, p.2 / t))) = sumValues d / t := by
  induction d with
  | nil => simp [sumValues]
  | cons p ps ih =>
    simp only [sumValues, List.map_cons, List.sum_cons] at *
    rw [ih]
    ring

theorem sumValues_map_const {K : Type} (d : List (K × ℚ)) (c : ℚ) :
    sumValues (d.map (fun p => (p.1, c))) = d.length * c := by
  induction d with
  | nil => simp [sumValues]
  | cons p ps ih =>
    simp only [sumValues, List.map_cons, List.sum_cons, List.length_cons] at *
    rw [ih]
    push_cast
    ring

/-! ### Learner lemmas -/

theorem runUpdates_weights_min {B : Type} (cfg : LearnerConfig)
    (obs : List (String × PerformanceMetric B)) (st : LearnerState B)
    (hst : ∀ p ∈ st.weights, cfg.min_weight ≤ p.2) :
    ∀ p ∈ (runUpdates cfg st obs).weights, cfg.min_weight ≤ p.2 := by
  induction obs generalizing st with
  | nil => exact hst
  | cons o os ih =>
    have hstep : ∀ p ∈ (updateWeight cfg st o.1 o.2).1.weights,
        cfg.min_weight ≤ p.2 := by
      unfold updateWeight
      exact dinsert_values_all _ _ _ _ hst (le_max_right _ _)
    exact ih (updateWeight cfg st o.1 o.2).1 hstep

/-! ### Claim theorems -/

/-- C4 (amended): construction of a `WorkerResult` fails exactly when
`confidence` is outside `[0,1]` or `processing_time_ms` is negative;
construction of an `AggregatedResult` fails exactly when `confidence` is
outside `[0,1]` — its `processing_time_ms` is not validated.  Hence every
successfully constructed `WorkerResult` has confidence in `[0,1]` and
non-negative processing time, and every successfully constructed
`AggregatedResult` has confidence in `[0,1]`, with out-of-range values
rejected rather than clamped. -/
theorem C4_result_construction_validation {A : Type} :
    (∀ (wid : String) (val : Option A) (c t : ℚ) (st : ResultStatus)
        (md : List (String × MVal A)) (tr : String),
        (WorkerResult.mkChecked wid val c t st md tr).isOk = true ↔
          (0 ≤ c ∧ c ≤ 1 ∧ 0 ≤ t)) ∧
    (∀ (val : Option A) (c : ℚ) (wrs : List (WorkerResult A))
        (ws : List (String × ℚ)) (m : String) (t : ℚ)
        (md : List (String × MVal A)) (tr : String),
        (AggregatedResult.mkChecked val c wrs ws m t md tr).isOk = true ↔
          (0 ≤ c ∧ c ≤ 1)) := by
  constructor
  · intro wid val c t st md tr
    unfold WorkerResult.mkChecked
    split_ifs with h1 h2
    · simp only [Except.isOk, Except.toBool]
      constructor
      · intro h
        exact absurd h Bool.false_ne_true
      · intro hcon
        exact absurd hcon.2.2 (not_le.mpr h2)
    · simp only [Except.isOk, Except.toBool]
      exact iff_of_true trivial ⟨h1.1, h1.2, not_lt.mp h2⟩
    · simp only [Except.isOk, Except.toBool]
      constructor
      · intro h
        exact absurd h Bool.false_ne_true
      · intro hcon
        exact absurd ⟨hcon.1, hcon.2.1⟩ h1
  · intro val c wrs ws m t md tr
    unfold AggregatedResult.mkChecked
    split_ifs with h1
    · simp only [Except.isOk, Except.toBool]
      exact iff_of_true trivial h1
    · simp only [Except.isOk, Except.toBool]
      constructor
      · intro h
        exact absurd h Bool.false_ne_true
      · intro hcon
        exact absurd hcon h1

/-- C4 counterexample: an `AggregatedResult` with processing time `-1`
constructs successfully, so construction does not fail on negative
processing time as the claim states. -/
theorem C4_negative_time_accepted :
    (AggregatedResult.mkChecked (A := ℚ) none (1/2) [] [] "median" (-1) []
      "").isOk = true := by
  rw [AggregatedResult.mkChecked, if_pos (by norm_num)]
  rfl

/-- Witness for C4: both characterizations applied at concrete in-range
inputs. -/
theorem C4_result_construction_validation_witness :
    (WorkerResult.mkChecked (A := ℚ) "w" (some 3) (1/2) 4 ResultStatus.success
      [] "t").isOk = true ∧
    (AggregatedResult.mkChecked (A := ℚ) (some 3) (1/2) [] [] "m" 4 []
      "t").isOk = true :=
  ⟨(C4_result_construction_validation.1 "w" (some 3) (1/2) 4
      ResultStatus.success [] "t").mpr (by norm_num),
   (C4_result_construction_validation.2 (some 3) (1/2) [] [] "m" 4
      [] "t").mpr (by norm_num)⟩

/-- C10: registering a worker whose id is already present never fails, maps
the id to the new worker (silently replacing the old one), and leaves the
total number of registered workers unchanged. -/
theorem C10_register_existing_replaces {I A : Type} (reg : Registry I A)
    (w : PoolWorker I A) (h : dcontains reg w.impl.worker_id = true) :
    dget? (registerWorker reg w) w.impl.worker_id = some w ∧
    (registerWorker reg w).length = reg.length :=
  ⟨dget?_dinsert_self reg w.impl.worker_id w,
   length_dinsert_of_contains reg w.impl.worker_id w h⟩

/-- Witness for C10: re-registering under the id of the already-registered
disabled worker replaces it and keeps the registry size at 1. -/
theorem C10_register_existing_replaces_witness :
    dcontains disabledRegistry replacementPoolWorker.impl.worker_id = true ∧
    dget? (registerWorker disabledRegistry replacementPoolWorker)
        replacementPoolWorker.impl.worker_id = some replacementPoolWorker ∧
    (registerWorker disabledRegistry replacementPoolWorker).length =
      disabledRegistry.length :=
  ⟨rfl,
   (C10_register_existing_replaces disabledRegistry replacementPoolWorker rfl).1,
   (C10_register_existing_replaces disabledRegistry replacementPoolWorker rfl).2⟩

/-- C3: with `alpha = 0.2`, `prior_weight = 1.0` and confidence scaling
disabled, one observation of accuracy 0.5 moves the weight from 1.0 to
exactly 0.9 and a second identical observation moves it to exactly 0.82;
and for every configuration and every sequence of observations, every
weight stored by the updates is at least the configured `min_weight`. -/
theorem C3_bayesian_update_rule :
    getWeight exampleLearnerCfg (LearnerState.init (A := ℚ)) "w" = 1 ∧
    (updateWeight exampleLearnerCfg (LearnerState.init (A := ℚ)) "w"
        halfAccuracyMetric).2 = 9/10 ∧
    getWeight exampleLearnerCfg
        (updateWeight exampleLearnerCfg (LearnerState.init (A := ℚ)) "w"
          halfAccuracyMetric).1 "w" = 9/10 ∧
    (updateWeight exampleLearnerCfg
        (updateWeight exampleLearnerCfg (LearnerState.init (A := ℚ)) "w"
          halfAccuracyMetric).1 "w" halfAccuracyMetric).2 = 41/50 ∧
    ∀ (B : Type) (cfg : LearnerConfig)
        (obs : List (String × PerformanceMetric B)),
        ∀ p ∈ (runUpdates cfg LearnerState.init obs).weights,
          cfg.min_weight ≤ p.2 := by
  refine ⟨?_, ?_, ?_, ?_, ?_⟩
  · simp [getWeight, exampleLearnerCfg, LearnerState.init, dgetD, dget?]
  · simp only [updateWeight, getWeight, exampleLearnerCfg, halfAccuracyMetric,
      LearnerState.init, dgetD, dget?, dinsert, Option.getD]
    norm_num [max_def]
  · simp only [updateWeight, getWeight, exampleLearnerCfg, halfAccuracyMetric,
      LearnerState.init, dgetD, dget?, dinsert, Option.getD]
    norm_num [max_def]
  · simp only [updateWeight, getWeight, exampleLearnerCfg, halfAccuracyMetric,
      LearnerState.init, dgetD, dget?, dinsert, Option.getD]
    norm_num [max_def]
  · intro B cfg obs p hp
    exact runUpdates_weights_min cfg obs LearnerState.init
      (by simp [LearnerState.init]) p hp

/-- Witness for C3: the floor bound applied to the concrete one-observation
run, whose stored weight 0.9 indeed sits above the floor 0.01. -/
theorem C3_bayesian_update_rule_witness :
    (("w", (9:ℚ)/10) ∈
      (runUpdates exampleLearnerCfg LearnerState.init
        [("w", halfAccuracyMetric)]).weights) ∧
    exampleLearnerCfg.min_weight ≤ (("w", (9:ℚ)/10)).2 := by
  have hw : (runUpdates exampleLearnerCfg LearnerState.init
      [("w", halfAccuracyMetric)]).weights = [("w", (9:ℚ)/10)] := by
    simp only [runUpdates, List.foldl, updateWeight, getWeight,
      exampleLearnerCfg, halfAccuracyMetric, LearnerState.init, dgetD, dget?,
      dinsert, Option.getD]
    norm_num [max_def]
  have hmem : ("w", (9:ℚ)/10) ∈
      (runUpdates exampleLearnerCfg LearnerState.init
        [("w", halfAccuracyMetric)]).weights := by
    rw [hw]
    exact List.mem_singleton_self _
  exact ⟨hmem, C3_bayesian_update_rule.2.2.2.2 ℚ exampleLearnerCfg
    [("w", halfAccuracyMetric)] ("w", (9:ℚ)/10) hmem⟩

/-- Helper: the checked `WorkerResult` constructor succeeds on in-range
fields, returning the record verbatim. -/
theorem workerResult_mkChecked_ok {A : Type} (wid : String) (val : Option A)
    (c t : ℚ) (st : ResultStatus) (md : List (String × MVal A)) (tr : String)
    (hc0 : 0 ≤ c) (hc1 : c ≤ 1) (ht : 0 ≤ t) :
    WorkerResult.mkChecked wid val c t st md tr =
      .ok ⟨wid, val, c, t, st, md, tr⟩ := by
  unfold WorkerResult.mkChecked
  rw [if_pos ⟨hc0, hc1⟩, if_neg (not_lt.mpr ht)]

/-- C1: for a non-negative measured elapsed time, `Worker.execute` always
returns a `WorkerResult` (it never raises); when `process` or
`get_confidence` raises, the result has status `FAILED`, confidence 0,
empty value and the error description in the metadata; when neither raises
and the reported confidence lies in `[0,1]`, the result has status
`SUCCESS` with that value and confidence. -/
theorem C1_worker_execute_never_raises {I A : Type} (w : WorkerImpl I A)
    (st : WorkerState) (data : I) (trace_id : String) (elapsed : ℚ)
    (helapsed : 0 ≤ elapsed) :
    (∃ st' r, Worker.execute w st data trace_id elapsed = .ok (st', r)) ∧
    (∀ e, w.process data = .error e →
      ∃ st' r, Worker.execute w st data trace_id elapsed = .ok (st', r) ∧
        r.status = ResultStatus.failed ∧ r.confidence = 0 ∧ r.value = none ∧
        ("error", MVal.s e.msg) ∈ r.metadata) ∧
    (∀ v e, w.process data = .ok v → w.get_confidence data v = .error e →
      ∃ st' r, Worker.execute w st data trace_id elapsed = .ok (st', r) ∧
        r.status = ResultStatus.failed ∧ r.confidence = 0 ∧ r.value = none ∧
        ("error", MVal.s e.msg) ∈ r.metadata) ∧
    (∀ v c, w.process data = .ok v → w.get_confidence data v = .ok c →
      0 ≤ c → c ≤ 1 →
      ∃ st' r, Worker.execute w st data trace_id elapsed = .ok (st', r) ∧
        r.status = ResultStatus.success ∧ r.confidence = c ∧
        r.value = some v) := by
  have hmkF : ∀ (e : Exc) (n : Nat),
      WorkerResult.mkChecked (A := A) w.worker_id none 0 elapsed
        ResultStatus.failed
        [("error", MVal.s e.msg), ("error_type", MVal.s e.ty),
         ("failure_count", MVal.n n)] trace_id =
        .ok ⟨w.worker_id, none, 0, elapsed, ResultStatus.failed,
          [("error", MVal.s e.msg), ("error_type", MVal.s e.ty),
           ("failure_count", MVal.n n)], trace_id⟩ := fun e n =>
    workerResult_mkChecked_ok _ _ _ _ _ _ _ (le_refl 0) (by norm_num) helapsed
  refine ⟨?_, ?_, ?_, ?_⟩
  · cases hp : w.process data with
    | error e =>
      simp only [Worker.execute, hp, hmkF]
      exact ⟨_, _, rfl⟩
    | ok v =>
      cases hg : w.get_confidence data v with
      | error e =>
        simp only [Worker.execute, hp, hg, hmkF]
        exact ⟨_, _, rfl⟩
      | ok c =>
        by_cases hc : 0 ≤ c ∧ c ≤ 1
        · simp only [Worker.execute, hp, hg,
            workerResult_mkChecked_ok w.worker_id (some v) c elapsed
              ResultStatus.success _ trace_id hc.1 hc.2 helapsed]
          exact ⟨_, _, rfl⟩
        · have hmkE : WorkerResult.mkChecked w.worker_id (some v) c elapsed
              ResultStatus.success
              [("worker_type", MVal.s w.worker_type),
               ("execution_count", MVal.n (st.execution_count + 1)),
               ("parameters", MVal.sdict w.parameters)] trace_id =
              .error ⟨"ValueError",
                "Confidence must be between 0.0 and 1.0"⟩ := by
            unfold WorkerResult.mkChecked
            rw [if_neg hc]
          have hmkF2 := hmkF ⟨"ValueError",
            "Confidence must be between 0.0 and 1.0"⟩ (st.failure_count + 1)
          simp only [Worker.execute, hp, hg, hmkE, hmkF2]
          exact ⟨_, _, rfl⟩
  · intro e hp
    simp only [Worker.execute, hp, hmkF]
    exact ⟨_, _, rfl, rfl, rfl, rfl, List.mem_cons_self _ _⟩
  · intro v e hp hg
    simp only [Worker.execute, hp, hg, hmkF]
    exact ⟨_, _, rfl, rfl, rfl, rfl, List.mem_cons_self _ _⟩
  · intro v c hp hg hc0 hc1
    simp only [Worker.execute, hp, hg,
      workerResult_mkChecked_ok w.worker_id (some v) c elapsed
        ResultStatus.success _ trace_id hc0 hc1 helapsed]
    exact ⟨_, _, rfl, rfl, rfl, rfl⟩

/-- Witness for C1: the always-raising worker yields a `FAILED` result
with the error message recorded, and the always-succeeding worker yields
a `SUCCESS` result with confidence 1. -/
theorem C1_worker_execute_never_raises_witness :
    (∃ st' r, Worker.execute boomImpl WorkerState.init 0 "t" 5 = .ok (st', r) ∧
      r.status = ResultStatus.failed ∧ r.confidence = 0 ∧ r.value = none ∧
      ("error", MVal.s "boom") ∈ r.metadata) ∧
    (∃ st' r, Worker.execute okImpl WorkerState.init 0 "t" 5 = .ok (st', r) ∧
      r.status = ResultStatus.success ∧ r.confidence = 1 ∧
      r.value = some 42) :=
  ⟨(C1_worker_execute_never_raises boomImpl WorkerState.init 0 "t" 5
      (by norm_num)).2.1 ⟨"RuntimeError", "boom"⟩ rfl,
   (C1_worker_execute_never_raises okImpl WorkerState.init 0 "t" 5
      (by norm_num)).2.2.2 42 1 rfl rfl (by norm_num) (by norm_num)⟩

/-- Helper: the checked `AggregatedResult` constructor succeeds on an
in-range confidence, returning the record verbatim. -/
theorem aggregatedResult_mkChecked_ok {A : Type} (val : Option A) (c : ℚ)
    (wrs : List (WorkerResult A)) (ws : List (String × ℚ)) (m : String)
    (t : ℚ) (md : List (String × MVal A)) (tr : String)
    (hc0 : 0 ≤ c) (hc1 : c ≤ 1) :
    AggregatedResult.mkChecked val c wrs ws m t md tr =
      .ok ⟨val, c, wrs, ws, m, t, md, tr⟩ := by
  unfold AggregatedResult.mkChecked
  rw [if_pos ⟨hc0, hc1⟩]

/-- Helper: the median of a one-element list is its element. -/
theorem medianQ_singleton (x : ℚ) : medianQ [x] = x := by
  simp [medianQ, List.mergeSort_singleton]

/-- Helper: a member of `filterValid` has success status and strictly
positive confidence. -/
theorem mem_filterValid {A : Type} {results : List (WorkerResult A)}
    {r : WorkerResult A} (h : r ∈ filterValid results) :
    r.status = ResultStatus.success ∧ 0 < r.confidence := by
  have hv := (List.mem_filter.mp h).2
  unfold WorkerResult.isValid at hv
  simp only [Bool.and_eq_true, beq_iff_eq, decide_eq_true_eq] at hv
  exact hv

/-- C9: when exactly one valid (numeric-valued) result is present, median
aggregation returns that worker's own confidence unchanged. -/
theorem C9_median_single_valid (results : List (WorkerResult ℚ))
    (provided : Option (List (String × ℚ))) (r : WorkerResult ℚ) (v : ℚ)
    (hval : filterValid results = [r]) (hv : r.value = some v)
    (hc1 : r.confidence ≤ 1) :
    (medianAggregate results provided).confidence = r.confidence := by
  have hrmem : r ∈ filterValid results := by
    rw [hval]
    exact List.mem_singleton_self r
  have hc0 : 0 < r.confidence := (mem_filterValid hrmem).2
  have hover : (r.confidence + (r.confidence + 0) / 1) / 2 = r.confidence := by
    norm_num
  unfold medianAggregate
  rw [hval]
  simp only [List.isEmpty_cons, List.all_cons, List.all_nil, hv,
    Option.isSome_some, Bool.and_true, List.map_cons, List.map_nil,
    Option.getD_some, List.length_cons, List.length_nil, List.sum_cons,
    List.sum_nil, List.headD_cons, medianQ_singleton, Bool.false_eq_true,
    if_false, if_true, Nat.cast_one]
  norm_num
  rw [aggregatedResult_mkChecked_ok _ _ _ _ _ _ _ _ (by linarith) (by linarith)]

/-- Witness for C9: a single valid numeric result with confidence 0.6 is
passed through unchanged. -/
theorem C9_median_single_valid_witness :
    filterValid [mkNumResult "a" 7 (3/5)] = [mkNumResult "a" 7 (3/5)] ∧
    (medianAggregate [mkNumResult "a" 7 (3/5)] none).confidence = 3/5 := by
  have hval : filterValid [mkNumResult "a" 7 (3/5)] =
      [mkNumResult "a" 7 (3/5)] := by
    unfold filterValid WorkerResult.isValid mkNumResult
    simp only [List.filter]
    norm_num
  exact ⟨hval,
    C9_median_single_valid [mkNumResult "a" 7 (3/5)] none
      (mkNumResult "a" 7 (3/5)) 7 hval rfl (by norm_num [mkNumResult])⟩

/-- Helper: a fold of dict assignments leaves a non-empty dict whenever the
starting dict or the iterated list is non-empty. -/
theorem foldl_dinsert_ne_nil {K V B : Type} [DecidableEq K]
    (key : B → K) (val : List (K × V) → B → V) (l : List B)
    (d : List (K × V)) (h : d ≠ [] ∨ l ≠ []) :
    l.foldl (fun acc b => dinsert acc (key b) (val acc b)) d ≠ [] := by
  induction l generalizing d with
  | nil =>
    simpa using h.resolve_right (by simp)
  | cons b bs ih =>
    simp only [List.foldl_cons]
    exact ih _ (Or.inl (dinsert_ne_nil _ _ _))

/-- Helper: the normalized weight dict always sums to exactly 1 when it is
non-empty: by division when the total is positive, by the equal-weight
fallback otherwise. -/
theorem sumValues_normalizeDict (d : List (String × ℚ)) (hd : d ≠ []) :
    sumValues (normalizeDict d) = 1 := by
  unfold normalizeDict
  by_cases h : 0 < sumValues d
  · rw [if_pos h, sumValues_map_div, div_self (ne_of_gt h)]
  · rw [if_neg h, sumValues_map_const]
    have hlen : (d.length : ℚ) ≠ 0 := by
      simpa using fun hc => hd (List.length_eq_zero.mp hc)
    field_simp

/-- Helper: in the fallback branch (total not positive) every entry of the
normalized dict is the equal weight `1 / len`. -/
theorem normalizeDict_uniform (d : List (String × ℚ))
    (h : ¬0 < sumValues d) :
    ∀ p ∈ normalizeDict d, p.2 = 1 / (d.length : ℚ) := by
  unfold normalizeDict
  rw [if_neg h]
  intro p hp
  rcases List.mem_map.mp hp with ⟨q, hq, rfl⟩
  rfl

/-- C5: with at least one valid result, the normalized weights computed by
weighted-average aggregation (effective weight = base weight times
confidence) sum to exactly 1; when the total effective weight is 0 every
entry is the equal weight `1/n`; and the weights the aggregation actually
returns on success are exactly this normalized dict. -/
theorem C5_weighted_average_normalization (results : List (WorkerResult ℚ))
    (provided : Option (List (String × ℚ)))
    (hval : filterValid results ≠ []) :
    sumValues (normalizeDict (effectiveWeights true (filterValid results)
      (getWeights (filterValid results) provided))) = 1 ∧
    (sumValues (effectiveWeights true (filterValid results)
        (getWeights (filterValid results) provided)) = 0 →
      ∀ p ∈ normalizeDict (effectiveWeights true (filterValid results)
          (getWeights (filterValid results) provided)),
        p.2 = 1 / ((effectiveWeights true (filterValid results)
          (getWeights (filterValid results) provided)).length : ℚ)) ∧
    (∀ a, (∀ r ∈ filterValid results, r.value.isSome = true) →
      weightedAverageAggregate true results provided = .ok a →
      a.weights = normalizeDict (effectiveWeights true (filterValid results)
        (getWeights (filterValid results) provided))) := by
  have heff : effectiveWeights true (filterValid results)
      (getWeights (filterValid results) provided) ≠ [] := by
    unfold effectiveWeights
    exact foldl_dinsert_ne_nil _ _ _ [] (Or.inr hval)
  refine ⟨sumValues_normalizeDict _ heff, ?_, ?_⟩
  · intro h0
    exact normalizeDict_uniform _ (by rw [h0]; exact lt_irrefl 0)
  · intro a hsome hagg
    unfold weightedAverageAggregate at hagg
    simp only [List.isEmpty_eq_false.mpr hval, Bool.false_eq_true, if_false,
      List.all_eq_true.mpr hsome, if_true] at hagg
    set nd := normalizeDict (effectiveWeights true (filterValid results)
      (getWeights (filterValid results) provided)) with hnd
    unfold AggregatedResult.mkChecked at hagg
    split_ifs at hagg with hrange
    all_goals cases hagg
    all_goals rfl

/-- Witness for C5: two valid unit-confidence results with no provided
weights normalize to weights summing to 1, and the aggregation reports
exactly those weights. -/
theorem C5_weighted_average_normalization_witness :
    filterValid [mkNumResult "a" 10 1, mkNumResult "b" 12 1] ≠ [] ∧
    sumValues (normalizeDict (effectiveWeights true
      (filterValid [mkNumResult "a" 10 1, mkNumResult "b" 12 1])
      (getWeights (filterValid [mkNumResult "a" 10 1, mkNumResult "b" 12 1])
        none))) = 1 := by
  have hval : filterValid [mkNumResult "a" 10 1, mkNumResult "b" 12 1] =
      [mkNumResult "a" 10 1, mkNumResult "b" 12 1] := by
    unfold filterValid WorkerResult.isValid mkNumResult
    simp only [List.filter]
    norm_num
  have hne : filterValid [mkNumResult "a" 10 1, mkNumResult "b" 12 1] ≠ [] := by
    rw [hval]
    exact List.cons_ne_nil _ _
  exact ⟨hne,
    (C5_weighted_average_normalization
      [mkNumResult "a" 10 1, mkNumResult "b" 12 1] none hne).1⟩

/-- Helper: concrete evaluation of majority voting on two valid voters for
the same value with default weights. -/
theorem majX2_eval :
    majorityVotingAggregate true catX2Results none = .ok majX2Agg := by
  norm_num [majorityVotingAggregate, filterValid, WorkerResult.isValid,
    catX2Results, mkCatResult, getWeights, voteScores, firstMax, dgetD, dget?,
    dinsert, sumValues, AggregatedResult.mkChecked, majX2Agg, List.filter,
    List.foldl, List.isEmpty]
  decide

/-- C8 (amended): only weighted-average aggregation stores normalized
weights; majority-voting and confidence-based aggregation store the
unnormalized base-weight dict (the provided weight, defaulting to 1.0, per
valid worker), which in general does not sum to 1. -/
theorem C8_weights_field_is_base_weights {A : Type} [DecidableEq A]
    (results : List (WorkerResult A)) (provided : Option (List (String × ℚ)))
    (hval : filterValid results ≠ []) :
    (∀ a, majorityVotingAggregate true results provided = .ok a →
      a.weights = getWeights (filterValid results) provided) ∧
    (∀ a, confidenceBasedAggregate results provided = .ok a →
      a.weights = getWeights (filterValid results) provided) := by
  constructor
  · intro a ha
    unfold majorityVotingAggregate at ha
    simp only [List.isEmpty_eq_false.mpr hval, Bool.false_eq_true,
      if_false] at ha
    unfold AggregatedResult.mkChecked at ha
    split at ha
    · cases ha
    · split_ifs at ha
      all_goals cases ha
      all_goals rfl
  · intro a ha
    unfold confidenceBasedAggregate at ha
    simp only [List.isEmpty_eq_false.mpr hval, Bool.false_eq_true,
      if_false] at ha
    unfold AggregatedResult.mkChecked at ha
    split at ha
    · cases ha
    · split_ifs at ha
      all_goals cases ha
      all_goals rfl

/-- C8 counterexample: with two valid voters and default base weight 1.0
each, majority voting returns a weights field summing to 2, not 1. -/
theorem C8_weights_sum_to_two :
    majorityVotingAggregate true catX2Results none = .ok majX2Agg ∧
    sumValues majX2Agg.weights = 2 :=
  ⟨majX2_eval, by norm_num [majX2Agg, sumValues]⟩

/-- Witness for C8: on the two-voter input the majority-voting weights
field equals the raw base-weight dict. -/
theorem C8_weights_field_is_base_weights_witness :
    majX2Agg.weights = getWeights (filterValid catX2Results) none :=
  (C8_weights_field_is_base_weights catX2Results none
      (by
        norm_num [filterValid, WorkerResult.isValid, catX2Results,
          mkCatResult, List.filter]
        exact List.cons_ne_nil _ _)).1
    majX2Agg majX2_eval

/-- Helper: whatever `execute` does, the collected result carries the
dispatched worker's id (both the genuine result and the synthesized
`FAILED` fallback use it). -/
theorem collectResult_worker_id {I A : Type} (w : PoolWorker I A)
    (tr : String) (data : I) :
    (collectResult w tr
      (Worker.execute w.impl w.state data tr w.duration_ms)).worker_id =
      w.impl.worker_id := by
  cases hp : w.impl.process data with
  | error e =>
    simp only [Worker.execute, hp]
    unfold WorkerResult.mkChecked
    split_ifs <;> rfl
  | ok v =>
    cases hg : w.impl.get_confidence data v with
    | error e =>
      simp only [Worker.execute, hp, hg]
      unfold WorkerResult.mkChecked
      split_ifs <;> rfl
    | ok c =>
      simp only [Worker.execute, hp, hg]
      unfold WorkerResult.mkChecked
      split_ifs <;> rfl

/-- Helper: no collected result can carry status `TIMEOUT`: `execute`
produces only `SUCCESS` or `FAILED` records and the pool's fallback
synthesizes `FAILED`; the `except TimeoutError` branch is unreachable. -/
theorem collectResult_not_timeout {I A : Type} (w : PoolWorker I A)
    (tr : String) (data : I) :
    (collectResult w tr
      (Worker.execute w.impl w.state data tr w.duration_ms)).status ≠
      ResultStatus.timeout := by
  cases hp : w.impl.process data with
  | error e =>
    simp only [Worker.execute, hp]
    unfold WorkerResult.mkChecked
    split_ifs <;> simp [collectResult]
  | ok v =>
    cases hg : w.impl.get_confidence data v with
    | error e =>
      simp only [Worker.execute, hp, hg]
      unfold WorkerResult.mkChecked
      split_ifs <;> simp [collectResult]
    | ok c =>
      simp only [Worker.execute, hp, hg]
      unfold WorkerResult.mkChecked
      split_ifs <;> simp [collectResult]

/-- Helper: membership in the active-worker list means registered, enabled
and not quarantined or disabled. -/
theorem mem_getActiveWorkers_iff {I A : Type} (reg : Registry I A)
    (w : PoolWorker I A) :
    w ∈ getActiveWorkers reg ↔
      (w ∈ reg.map (fun p => p.2) ∧ w.enabled = true ∧
       w.state.status ≠ WorkerStatus.quarantined ∧
       w.state.status ≠ WorkerStatus.disabled) := by
  unfold getActiveWorkers PoolWorker.isActive
  rw [List.mem_filter]
  simp [and_assoc]

/-- C7 (amended): the dispatch set of `execute_parallel` is exactly the
active workers (enabled, not quarantined or disabled) when `worker_ids` is
`None` or the empty list; a non-empty explicit `worker_ids` list is
resolved against the registry with no active-status filtering at all; and
in every case exactly one `WorkerResult` is produced per dispatched
worker, carrying that worker's id. -/
theorem C7_dispatch_targets {I A : Type} (reg : Registry I A) (data : I)
    (trace : String) :
    (∀ w, w ∈ getActiveWorkers reg ↔
      (w ∈ reg.map (fun p => p.2) ∧ w.enabled = true ∧
       w.state.status ≠ WorkerStatus.quarantined ∧
       w.state.status ≠ WorkerStatus.disabled)) ∧
    workersToExecute reg none = getActiveWorkers reg ∧
    workersToExecute reg (some []) = getActiveWorkers reg ∧
    (∀ ids, ids ≠ [] →
      workersToExecute reg (some ids) =
        ids.filterMap (fun wid => dget? reg wid)) ∧
    (∀ worker_ids,
      (executeParallel reg data worker_ids trace).map (fun r => r.worker_id) =
        (workersToExecute reg worker_ids).map (fun w => w.impl.worker_id)) := by
  refine ⟨fun w => mem_getActiveWorkers_iff reg w, rfl, rfl, ?_, ?_⟩
  · intro ids h
    unfold workersToExecute
    simp only [List.isEmpty_eq_false.mpr h, Bool.false_eq_true, if_false]
  · intro worker_ids
    unfold executeParallel
    rw [List.map_map]
    apply List.map_congr_left
    intro w hw
    exact collectResult_worker_id w trace data

/-- C7 counterexample: a registered but disabled worker is not active, yet
an explicit `worker_ids` list dispatches it and one result is returned for
it. -/
theorem C7_explicit_ids_bypass_active_filter :
    workersToExecute disabledRegistry (some ["off_worker"]) =
      [disabledPoolWorker] ∧
    disabledPoolWorker.isActive = false ∧
    getActiveWorkers disabledRegistry = [] ∧
    (executeParallel disabledRegistry 0 (some ["off_worker"]) "t").length =
      1 := by
  refine ⟨rfl, rfl, rfl, ?_⟩
  simp only [executeParallel, List.length_map]
  rfl

/-- Witness for C7: the explicit-list branch resolved on the concrete
registry, and the `None` branch on the slow-worker registry. -/
theorem C7_dispatch_targets_witness :
    workersToExecute disabledRegistry (some ["off_worker"]) =
      ["off_worker"].filterMap (fun wid => dget? disabledRegistry wid) ∧
    workersToExecute slowRegistry none = getActiveWorkers slowRegistry :=
  ⟨(C7_dispatch_targets disabledRegistry (0:ℚ) "t").2.2.2.1 ["off_worker"]
      (by simp),
   (C7_dispatch_targets slowRegistry (0:ℚ) "t").2.1⟩

/-- Helper: full evaluation of the dispatch on the slow worker: the pool
waits for completion and collects the genuine `SUCCESS` result. -/
theorem slowRun_eval :
    executeParallel slowRegistry (0:ℚ) none "t" = [slowRunResult] := by
  have hexec : Worker.execute slowPoolWorker.impl slowPoolWorker.state (0:ℚ)
      "t" slowPoolWorker.duration_ms =
      .ok (⟨WorkerStatus.idle, 1, 0, 10000⟩, slowRunResult) := by
    simp only [slowPoolWorker, okImpl, WorkerState.init, Worker.execute]
    rw [workerResult_mkChecked_ok _ _ _ _ _ _ _ (by norm_num) (by norm_num)
      (by norm_num)]
    norm_num [slowRunResult]
  unfold executeParallel
  have hdisp : workersToExecute slowRegistry none = [slowPoolWorker] := rfl
  rw [hdisp]
  simp only [List.map_cons, List.map_nil, hexec, collectResult]

/-- C2 (observed behavior): the worker whose `process` takes 10 seconds
against a configured 1-second timeout yields one `SUCCESS` result with the
full 10000 ms processing time — not a `TIMEOUT` result — and no result of
`execute_parallel` ever carries status `TIMEOUT`, because `as_completed`
yields only completed futures, so `future.result(timeout=...)` can never
raise `TimeoutError`. -/
theorem C2_timeout_result_never_produced :
    executeParallel slowRegistry (0:ℚ) none "t" = [slowRunResult] ∧
    slowRunResult.status = ResultStatus.success ∧
    slowRunResult.processing_time_ms = 10000 ∧
    slowPoolWorker.timeout_seconds = 1 ∧
    (∀ (I A : Type) (reg : Registry I A) (data : I)
        (worker_ids : Option (List String)) (trace : String),
      ∀ r ∈ executeParallel reg data worker_ids trace,
        r.status ≠ ResultStatus.timeout) := by
  refine ⟨slowRun_eval, rfl, rfl, rfl, ?_⟩
  intro I A reg data worker_ids trace r hr
  rcases List.mem_map.mp hr with ⟨w, hw, rfl⟩
  exact collectResult_not_timeout w trace data

/-- Witness for C2: the slow worker's collected result is a member of the
batch and indeed does not have status `TIMEOUT`. -/
theorem C2_timeout_result_never_produced_witness :
    slowRunResult ∈ executeParallel slowRegistry (0:ℚ) none "t" ∧
    slowRunResult.status ≠ ResultStatus.timeout := by
  have hmem : slowRunResult ∈ executeParallel slowRegistry (0:ℚ) none "t" := by
    rw [slowRun_eval]
    exact List.mem_singleton_self _
  exact ⟨hmem, C2_timeout_result_never_produced.2.2.2.2 ℚ ℚ slowRegistry 0
    none "t" slowRunResult hmem⟩

/-! ### Vote-table lemmas for majority voting -/

theorem sumValues_dinsert_add {K : Type} [DecidableEq K]
    (d : List (K × ℚ)) (k : K) (s : ℚ) :
    sumValues (dinsert d k (dgetD d k 0 + s)) = sumValues d + s := by
  induction d with
  | nil => simp [dinsert, dgetD, dget?, sumValues]
  | cons p ps ih =>
    by_cases hp : p.1 = k
    · simp only [dinsert, hp, if_true, dgetD, dget?, sumValues, List.map_cons,
        List.sum_cons, Option.getD_some]
      ring
    · simp only [dinsert, hp, if_false, dgetD, dget?, sumValues,
        List.map_cons, List.sum_cons] at ih ⊢
      rw [ih]
      ring

theorem mem_keys_dinsert {K V : Type} [DecidableEq K]
    (d : List (K × V)) (k x : K) (v : V)
    (h : x ∈ (dinsert d k v).map Prod.fst) :
    x ∈ d.map Prod.fst ∨ x = k := by
  induction d with
  | nil =>
    simp [dinsert] at h
    exact Or.inr h
  | cons p ps ih =>
    by_cases hp : p.1 = k
    · simp only [dinsert, hp, if_true, List.map_cons, List.mem_cons] at h
      rcases h with h | h
      · exact Or.inr h
      · exact Or.inl (by simp [h])
    · simp only [dinsert, hp, if_false, List.map_cons, List.mem_cons] at h
      rcases h with h | h
      · exact Or.inl (by simp [h])
      · rcases ih h with h' | h'
        · exact Or.inl (List.mem_cons_of_mem _ h')
        · exact Or.inr h'

theorem keys_nodup_dinsert {K V : Type} [DecidableEq K]
    (d : List (K × V)) (k : K) (v : V)
    (h : (d.map Prod.fst).Nodup) :
    ((dinsert d k v).map Prod.fst).Nodup := by
  induction d with
  | nil => simp [dinsert]
  | cons p ps ih =>
    simp only [List.map_cons, List.nodup_cons] at h
    by_cases hp : p.1 = k
    · simp only [dinsert, hp, if_true, List.map_cons, List.nodup_cons]
      exact ⟨hp ▸ h.1, h.2⟩
    · simp only [dinsert, hp, if_false, List.map_cons, List.nodup_cons]
      refine ⟨fun hc => ?_, ih h.2⟩
      rcases mem_keys_dinsert ps k p.1 v hc with h' | h'
      · exact h.1 h'
      · exact hp h'

theorem dget?_eq_of_mem_nodup {K V : Type} [DecidableEq K]
    (d : List (K × V)) (k : K) (v : V)
    (hnd : (d.map Prod.fst).Nodup) (hmem : (k, v) ∈ d) :
    dget? d k = some v := by
  induction d with
  | nil => cases hmem
  | cons p ps ih =>
    simp only [List.map_cons, List.nodup_cons] at hnd
    rcases List.mem_cons.mp hmem with h | h
    · simp [dget?, ← h]
    · have hk : k ∈ ps.map Prod.fst :=
        List.mem_map.mpr ⟨(k, v), h, rfl⟩
      have hp : ¬p.1 = k := fun hc => hnd.1 (hc ▸ hk)
      simp only [dget?, hp, if_false]
      exact ih hnd.2 h

theorem dget?_mem {K V : Type} [DecidableEq K]
    (d : List (K × V)) (k : K) (v : V) (h : dget? d k = some v) :
    (k, v) ∈ d := by
  induction d with
  | nil => cases h
  | cons p ps ih =>
    by_cases hp : p.1 = k
    · simp only [dget?, hp, if_true, Option.some.injEq] at h
      exact List.mem_cons.mpr (Or.inl (by rw [← hp, ← h]))
    · simp only [dget?, hp, if_false] at h
      exact List.mem_cons_of_mem _ (ih h)

theorem dgetD_nonneg_of_values {K : Type} [DecidableEq K]
    (d : List (K × ℚ)) (k : K) (dflt : ℚ)
    (hd : ∀ p ∈ d, 0 ≤ p.2) (hdflt : 0 ≤ dflt) :
    0 ≤ dgetD d k dflt := by
  unfold dgetD
  cases hq : dget? d k with
  | none => simpa using hdflt
  | some v =>
    have := hd (k, v) (dget?_mem d k v hq)
    simpa using this

/-- The `use_confidence = true` vote-score fold written with the score
expression inlined. -/
theorem voteScores_true_eq {A : Type} [DecidableEq A]
    (valid : List (WorkerResult A)) (bw : List (String × ℚ)) :
    voteScores true valid bw =
      valid.foldl (fun d r => dinsert d r.value
        (dgetD d r.value 0 + dgetD bw r.worker_id 1 * r.confidence)) [] := rfl

theorem voteScores_aux_getD {A : Type} [DecidableEq A]
    (bw : List (String × ℚ)) (l : List (WorkerResult A))
    (d : List (Option A × ℚ)) (v : Option A) :
    dgetD (l.foldl (fun d r => dinsert d r.value
        (dgetD d r.value 0 + dgetD bw r.worker_id 1 * r.confidence)) d) v 0 =
      dgetD d v 0 + ((l.filter (fun r => decide (r.value = v))).map
        (fun r => dgetD bw r.worker_id 1 * r.confidence)).sum := by
  induction l generalizing d with
  | nil => simp
  | cons r t ih =>
    simp only [List.foldl_cons, List.filter_cons]
    by_cases hv : r.value = v
    · simp only [decide_eq_true hv, if_true, List.map_cons, List.sum_cons]
      rw [ih, hv, dgetD_dinsert_self]
      ring
    · simp only [decide_eq_false hv, Bool.false_eq_true, if_false]
      rw [ih, dgetD_dinsert_of_ne _ _ _ _ _ hv]

theorem voteScores_aux_sum {A : Type} [DecidableEq A]
    (bw : List (String × ℚ)) (l : List (WorkerResult A))
    (d : List (Option A × ℚ)) :
    sumValues (l.foldl (fun d r => dinsert d r.value
        (dgetD d r.value 0 + dgetD bw r.worker_id 1 * r.confidence)) d) =
      sumValues d +
        (l.map (fun r => dgetD bw r.worker_id 1 * r.confidence)).sum := by
  induction l generalizing d with
  | nil => simp
  | cons r t ih =>
    simp only [List.foldl_cons, List.map_cons, List.sum_cons]
    rw [ih, sumValues_dinsert_add]
    ring

theorem voteScores_aux_nonneg {A : Type} [DecidableEq A]
    (bw : List (String × ℚ)) (l : List (WorkerResult A))
    (d : List (Option A × ℚ))
    (hd : ∀ p ∈ d, 0 ≤ p.2)
    (hs : ∀ r ∈ l, 0 ≤ dgetD bw r.worker_id 1 * r.confidence) :
    ∀ p ∈ l.foldl (fun d r => dinsert d r.value
        (dgetD d r.value 0 + dgetD bw r.worker_id 1 * r.confidence)) d,
      0 ≤ p.2 := by
  induction l generalizing d with
  | nil => exact hd
  | cons r t ih =>
    simp only [List.foldl_cons]
    refine ih _ ?_ (fun q hq => hs q (List.mem_cons_of_mem _ hq))
    refine dinsert_values_all _ _ _ _ hd ?_
    have h1 := dgetD_nonneg d r.value hd
    have h2 := hs r (List.mem_cons_self r t)
    linarith

theorem voteScores_aux_keys_nodup {A : Type} [DecidableEq A]
    (bw : List (String × ℚ)) (l : List (WorkerResult A))
    (d : List (Option A × ℚ)) (hd : (d.map Prod.fst).Nodup) :
    ((l.foldl (fun d r => dinsert d r.value
        (dgetD d r.value 0 + dgetD bw r.worker_id 1 * r.confidence))
      d).map Prod.fst).Nodup := by
  induction l generalizing d with
  | nil => exact hd
  | cons r t ih =>
    simp only [List.foldl_cons]
    exact ih _ (keys_nodup_dinsert _ _ _ hd)

/-- Python `max(l, key=...)` keeps the first-seen maximum: the fold's
result splits the list into strictly-smaller earlier entries, itself, and
no-larger later entries. -/
theorem foldl_max_split {K : Type} (t : List (K × ℚ)) (b : K × ℚ) :
    ∃ l₁ l₂,
      b :: t = l₁ ++
        (t.foldl (fun best q => if best.2 < q.2 then q else best) b) :: l₂ ∧
      (∀ p ∈ l₁,
        p.2 < (t.foldl (fun best q => if best.2 < q.2 then q else best) b).2) ∧
      (∀ p ∈ l₂,
        p.2 ≤ (t.foldl (fun best q => if best.2 < q.2 then q else best) b).2) := by
  induction t generalizing b with
  | nil =>
    exact ⟨[], [], by simp, by simp, by simp⟩
  | cons q t ih =>
    simp only [List.foldl_cons]
    by_cases hbq : b.2 < q.2
    · rw [if_pos hbq]
      obtain ⟨l₁, l₂, heq, hlt, hle⟩ := ih q
      have hqm : q.2 ≤
          (t.foldl (fun best q => if best.2 < q.2 then q else best) q).2 := by
        cases l₁ with
        | nil =>
          have h' := (List.cons.injEq _ _ _ _).mp (by simpa using heq)
          exact le_of_eq (congrArg Prod.snd h'.1)
        | cons a l₁' =>
          have h' := (List.cons.injEq _ _ _ _).mp (by simpa using heq)
          have ha := hlt a (List.mem_cons_self a l₁')
          have hqa := congrArg Prod.snd h'.1
          rw [hqa]
          exact le_of_lt ha
      refine ⟨b :: l₁, l₂, ?_, ?_, hle⟩
      · simpa using congrArg (fun l => b :: l) heq
      · intro p hp
        rcases List.mem_cons.mp hp with h | h
        · rw [h]
          exact lt_of_lt_of_le hbq hqm
        · exact hlt p h
    · rw [if_neg hbq]
      obtain ⟨l₁, l₂, heq, hlt, hle⟩ := ih b
      cases l₁ with
      | nil =>
        have h' := (List.cons.injEq _ _ _ _).mp (by simpa using heq)
        refine ⟨[], q :: t, ?_, by simp, ?_⟩
        · simpa using congrArg (fun x => x :: q :: t) h'.1
        · intro p hp
          rcases List.mem_cons.mp hp with h | h
          · rw [h]
            have h2 := congrArg Prod.snd h'.1
            rw [← h2]
            exact not_lt.mp hbq
          · exact hle p (h'.2 ▸ h)
      | cons a l₁' =>
        have h' := (List.cons.injEq _ _ _ _).mp (by simpa using heq)
        refine ⟨b :: q :: l₁', l₂, ?_, ?_, hle⟩
        · simpa using congrArg (fun l => b :: q :: l) h'.2
        · intro p hp
          have hb : b.2 <
              (t.foldl (fun best q => if best.2 < q.2 then q else best) b).2 := by
            have ha := hlt a (List.mem_cons_self a l₁')
            have hba := congrArg Prod.snd h'.1
            rw [hba]
            exact ha
          rcases List.mem_cons.mp hp with h | h
          · rw [h]
            exact hb
          · rcases List.mem_cons.mp h with h2 | h2
            · rw [h2]
              exact lt_of_le_of_lt (not_lt.mp hbq) hb
            · exact hlt p (List.mem_cons_of_mem _ h2)

/-- The first-maximum characterization of `firstMax` on a non-empty list. -/
theorem firstMax_split {K : Type} (l : List (K × ℚ)) (m : K × ℚ)
    (h : firstMax l = some m) :
    ∃ l₁ l₂, l = l₁ ++ m :: l₂ ∧
      (∀ p ∈ l₁, p.2 < m.2) ∧ (∀ p ∈ l₂, p.2 ≤ m.2) := by
  cases l with
  | nil => cases h
  | cons p ps =>
    simp only [firstMax, Option.some.injEq] at h
    obtain ⟨l₁, l₂, heq, hlt, hle⟩ := foldl_max_split ps p
    rw [h] at heq hlt hle
    exact ⟨l₁, l₂, heq, hlt, hle⟩

/-- Core analysis of the weighted vote pipeline: on a non-empty valid list
with non-negative scores, `max` picks a first-seen maximum entry of the
vote table whose stored score is the weighted sum over the results voting
for it, and `winning_score / total_score` (with the code's `total > 0`
guard) is a well-formed confidence equal to that quotient. -/
theorem majority_scores_spec {A : Type} [DecidableEq A]
    (valid : List (WorkerResult A)) (bw : List (String × ℚ))
    (hne : valid ≠ [])
    (hsn : ∀ r ∈ valid, 0 ≤ dgetD bw r.worker_id 1 * r.confidence) :
    ∃ m l₁ l₂,
      firstMax (voteScores true valid bw) = some m ∧
      m.2 = ((valid.filter (fun r => decide (r.value = m.1))).map
        (fun r => dgetD bw r.worker_id 1 * r.confidence)).sum ∧
      (if 0 < sumValues (voteScores true valid bw) then
          m.2 / sumValues (voteScores true valid bw) else 0) =
        m.2 / (valid.map (fun r => dgetD bw r.worker_id 1 * r.confidence)).sum ∧
      0 ≤ (if 0 < sumValues (voteScores true valid bw) then
          m.2 / sumValues (voteScores true valid bw) else 0) ∧
      (if 0 < sumValues (voteScores true valid bw) then
          m.2 / sumValues (voteScores true valid bw) else 0) ≤ 1 ∧
      voteScores true valid bw = l₁ ++ m :: l₂ ∧
      (∀ p ∈ l₁, p.2 < m.2) ∧ (∀ p ∈ l₂, p.2 ≤ m.2) := by
  have hvals : ∀ p ∈ voteScores true valid bw, 0 ≤ p.2 := by
    rw [voteScores_true_eq]
    exact voteScores_aux_nonneg bw valid [] (by simp) hsn
  have hvs_ne : voteScores true valid bw ≠ [] := by
    rw [voteScores_true_eq]
    exact foldl_dinsert_ne_nil _ _ valid [] (Or.inr hne)
  obtain ⟨m, hm⟩ : ∃ m, firstMax (voteScores true valid bw) = some m := by
    cases hvse : voteScores true valid bw with
    | nil => exact absurd hvse hvs_ne
    | cons p ps => exact ⟨_, by rw [firstMax]⟩
  obtain ⟨l₁, l₂, hsplit, hlt, hle⟩ := firstMax_split _ m hm
  have hmem : m ∈ voteScores true valid bw := by
    rw [hsplit]
    exact List.mem_append_right _ (List.mem_cons_self _ _)
  have hnd : ((voteScores true valid bw).map Prod.fst).Nodup := by
    rw [voteScores_true_eq]
    exact voteScores_aux_keys_nodup bw valid [] (by simp)
  have hlook : dget? (voteScores true valid bw) m.1 = some m.2 :=
    dget?_eq_of_mem_nodup _ m.1 m.2 hnd hmem
  have hws : m.2 = ((valid.filter (fun r => decide (r.value = m.1))).map
      (fun r => dgetD bw r.worker_id 1 * r.confidence)).sum := by
    have h1 : dgetD (voteScores true valid bw) m.1 0 = m.2 := by
      rw [dgetD, hlook]
      rfl
    have h2 := voteScores_aux_getD bw valid [] m.1
    rw [← voteScores_true_eq] at h2
    rw [← h1, h2]
    simp [dgetD, dget?]
  have hsumvs : sumValues (voteScores true valid bw) =
      (valid.map (fun r => dgetD bw r.worker_id 1 * r.confidence)).sum := by
    have h2 := voteScores_aux_sum bw valid []
    rw [← voteScores_true_eq] at h2
    rw [h2]
    simp [sumValues]
  have htot_nonneg : 0 ≤ sumValues (voteScores true valid bw) := by
    unfold sumValues
    apply List.sum_nonneg
    intro x hx
    rcases List.mem_map.mp hx with ⟨q, hq, rfl⟩
    exact hvals q hq
  have hm_le : m.2 ≤ sumValues (voteScores true valid bw) :=
    dget?_le_sumValues _ m.1 m.2 hvals hlook
  have hm_nonneg : 0 ≤ m.2 := hvals m hmem
  have hconf_eq : (if 0 < sumValues (voteScores true valid bw) then
      m.2 / sumValues (voteScores true valid bw) else 0) =
      m.2 / (valid.map (fun r => dgetD bw r.worker_id 1 * r.confidence)).sum := by
    rw [← hsumvs]
    by_cases htot : 0 < sumValues (voteScores true valid bw)
    · rw [if_pos htot]
    · rw [if_neg htot]
      have h0 : sumValues (voteScores true valid bw) = 0 :=
        le_antisymm (not_lt.mp htot) htot_nonneg
      rw [h0, div_zero]
  have hc0 : 0 ≤ (if 0 < sumValues (voteScores true valid bw) then
      m.2 / sumValues (voteScores true valid bw) else 0) := by
    by_cases htot : 0 < sumValues (voteScores true valid bw)
    · rw [if_pos htot]
      exact div_nonneg hm_nonneg htot_nonneg
    · rw [if_neg htot]
  have hc1 : (if 0 < sumValues (voteScores true valid bw) then
      m.2 / sumValues (voteScores true valid bw) else 0) ≤ 1 := by
    by_cases htot : 0 < sumValues (voteScores true valid bw)
    · rw [if_pos htot]
      exact (div_le_one htot).mpr hm_le
    · rw [if_neg htot]
      norm_num
  exact ⟨m, l₁, l₂, hm, hws, hconf_eq, hc0, hc1, hsplit, hlt, hle⟩

/-- C6 (amended: for non-negative provided weights): majority voting
returns a result whose value is the vote-table entry picked by `max` —
a first-seen maximum: all earlier table entries score strictly less, all
later ones no more — whose score is the sum of `base_weight * confidence`
over the valid results voting for it, whose confidence equals
`winning_score / total_score`, and whose metadata `agreement` entry is the
fraction of valid results that voted for the winner. -/
theorem C6_majority_voting_confidence_agreement {A : Type} [DecidableEq A]
    (results : List (WorkerResult A)) (provided : Option (List (String × ℚ)))
    (hval : filterValid results ≠ [])
    (hw : ∀ p ∈ getWeights (filterValid results) provided, 0 ≤ p.2) :
    ∃ a wv ws l₁ l₂,
      majorityVotingAggregate true results provided = .ok a ∧
      firstMax (voteScores true (filterValid results)
        (getWeights (filterValid results) provided)) = some (wv, ws) ∧
      a.value = wv ∧
      ws = (((filterValid results).filter (fun r => decide (r.value = wv))).map
        (fun r => dgetD (getWeights (filterValid results) provided)
          r.worker_id 1 * r.confidence)).sum ∧
      a.confidence = ws /
        ((filterValid results).map
          (fun r => dgetD (getWeights (filterValid results) provided)
            r.worker_id 1 * r.confidence)).sum ∧
      dget? a.metadata "agreement" = some (MVal.q
        (((((filterValid results).filter
            (fun r => decide (r.value = wv))).length : ℚ)) /
          (((filterValid results).length : ℚ)))) ∧
      voteScores true (filterValid results)
          (getWeights (filterValid results) provided) = l₁ ++ (wv, ws) :: l₂ ∧
      (∀ p ∈ l₁, p.2 < ws) ∧ (∀ p ∈ l₂, p.2 ≤ ws) := by
  have hsn : ∀ r ∈ filterValid results,
      0 ≤ dgetD (getWeights (filterValid results) provided)
        r.worker_id 1 * r.confidence := by
    intro r hr
    exact mul_nonneg
      (dgetD_nonneg_of_values _ r.worker_id 1 hw (by norm_num))
      (le_of_lt (mem_filterValid hr).2)
  obtain ⟨m, l₁, l₂, hm, hws, hconf_eq, hc0, hc1, hsplit, hlt, hle⟩ :=
    majority_scores_spec (filterValid results)
      (getWeights (filterValid results) provided) hval hsn
  have hagg : majorityVotingAggregate true results provided =
      AggregatedResult.mkChecked m.1
        (if 0 < sumValues (voteScores true (filterValid results)
            (getWeights (filterValid results) provided)) then
          m.2 / sumValues (voteScores true (filterValid results)
            (getWeights (filterValid results) provided)) else 0)
        results (getWeights (filterValid results) provided) "majority_voting" 0
        [("valid_results", MVal.n (filterValid results).length),
         ("total_results", MVal.n results.length),
         ("vote_distribution", MVal.dist (voteScores true (filterValid results)
           (getWeights (filterValid results) provided))),
         ("agreement", MVal.q
           (((((filterValid results).filter
               (fun r => decide (r.value = m.1))).length : ℚ)) /
             (((filterValid results).length : ℚ)))),
         ("use_confidence", MVal.b true)] "" := by
    unfold majorityVotingAggregate
    simp only [List.isEmpty_eq_false.mpr hval, Bool.false_eq_true, if_false, hm]
  rw [aggregatedResult_mkChecked_ok _ _ _ _ _ _ _ _ hc0 hc1] at hagg
  refine ⟨_, m.1, m.2, l₁, l₂, hagg, ?_, rfl, hws, ?_, ?_, ?_, hlt, hle⟩
  · rw [← hm]
  · exact hconf_eq
  · simp only [dget?]
    rw [if_neg (by decide), if_neg (by decide), if_neg (by decide)]
    simp
  · rw [← hsplit]

/-- C6 counterexample: with the mixed-sign weight map the computed
confidence is `(1/2) / (1/10) = 5`, so the final `AggregatedResult`
construction raises `ValueError` and majority voting returns no result at
all — in particular not one with confidence `winning_score/total_score`. -/
theorem C6_negative_weight_raises :
    majorityVotingAggregate true catMixedResults (some negWeights) =
      .error ⟨"ValueError", "Confidence must be between 0.0 and 1.0"⟩ := by
  have hab : ("a" : String) ≠ "b" := by decide
  have hxy : ("x" : String) ≠ "y" := by decide
  norm_num [majorityVotingAggregate, filterValid, WorkerResult.isValid,
    catMixedResults, mkCatResult, negWeights, getWeights, voteScores, firstMax,
    dgetD, dget?, dinsert, sumValues, AggregatedResult.mkChecked, List.filter,
    List.foldl, List.isEmpty, hab, hxy]

/-- Witness for C6: the worked high/high/medium scenario with positive
weights aggregates successfully. -/
theorem C6_majority_voting_confidence_agreement_witness :
    (majorityVotingAggregate true scenarioResults
      (some scenarioWeights)).isOk = true := by
  have hfv : filterValid scenarioResults = scenarioResults := by
    unfold filterValid WorkerResult.isValid scenarioResults mkCatResult
    simp only [List.filter]
    norm_num
  have hval : filterValid scenarioResults ≠ [] := by
    rw [hfv]
    exact List.cons_ne_nil _ _
  have hgw : getWeights (filterValid scenarioResults) (some scenarioWeights) =
      [("w1", 6/10), ("w2", 5/10), ("w3", 4/10)] := by
    rw [hfv]
    have h12 : ("w1" : String) ≠ "w2" := by decide
    have h13 : ("w1" : String) ≠ "w3" := by decide
    have h23 : ("w2" : String) ≠ "w3" := by decide
    norm_num [getWeights, scenarioWeights, scenarioResults, mkCatResult,
      dgetD, dget?, dinsert, List.foldl, List.isEmpty, h12, h13, h23]
  have hw : ∀ p ∈ getWeights (filterValid scenarioResults)
      (some scenarioWeights), 0 ≤ p.2 := by
    rw [hgw]
    intro p hp
    simp only [List.mem_cons, List.not_mem_nil, or_false] at hp
    rcases hp with h | h | h <;> rw [h] <;> norm_num
  obtain ⟨a, wv, ws, l₁, l₂, hagg, _⟩ :=
    C6_majority_voting_confidence_agreement scenarioResults
      (some scenarioWeights) hval hw
  rw [hagg]
  rfl

end TSM
